import Mathlib

/-!
Shallow embedding of `src/sem1_prog_task-2/main.py` — a calculator that
evaluates arithmetic expressions written as Russian number words and renders
the exact rational result back as Russian words.

Conventions of the embedding:
* Python's arbitrary-precision non-negative integers are `Nat`; `Fraction`
  is Mathlib's `ℚ` (both keep the value as a reduced numerator/denominator
  pair with positive denominator).
* A phrase built by the source with single spaces (`" ".join`, f-strings) is
  represented by its list of word tokens; the final output string is
  recovered with `String.intercalate " "`.
* A Python function that can `raise` is modelled as returning `Except Err α`,
  with one `Err` constructor per distinct raise site that matters here.
* The source's `while` loops are modelled by structurally recursive
  functions whose fuel mirrors the loop bound exactly (the cycle-detection
  loop runs `pos` from 0 while `pos < 200`, so it is given fuel `200 - pos`;
  `_count_factor` strictly decreases its argument, so it is given fuel `n`).
-/

deriving instance DecidableEq for Except

/-- Error kinds, one per raise site of the source that this development
touches.  `negativeResult` models the `NotImplementedError` raised by
`rational_to_words` on negative input, `unsupportedMagnitude` the one raised
by `int_to_words_ru` for `n ≥ 1_000_000`. -/
inductive Err where
  | expectedNumber099
  | unknownNumber
  | invalidNumber
  | tooLongNumber
  | expectedNumber0999
  | duplicateTeens
  | unknownNumberToken
  | outOfRange999
  | expectedNumber0999999
  | outOfRange999999
  | expectedNumberTokens
  | invalidDecimalFormat
  | unknownDenominatorWord
  | fractionOutOfBounds
  | unsupportedDenominator
  | negativeResult
  | unsupportedMagnitude
  | emptyExpression
  | operationNotFound
  | invalidFormat
  | divisionByZero
  | moduloByZero
  | unknownOperation
  deriving DecidableEq, Repr

/-- The `UNITS` dictionary of the source. -/
def UNITS : List (String × Nat) :=
  [("ноль", 0), ("один", 1), ("два", 2), ("три", 3), ("четыре", 4),
   ("пять", 5), ("шесть", 6), ("семь", 7), ("восемь", 8), ("девять", 9)]

/-- The `TEENS` dictionary of the source. -/
def TEENS : List (String × Nat) :=
  [("десять", 10), ("одиннадцать", 11), ("двенадцать", 12), ("тринадцать", 13),
   ("четырнадцать", 14), ("пятнадцать", 15), ("шестнадцать", 16),
   ("семнадцать", 17), ("восемнадцать", 18), ("девятнадцать", 19)]

/-- The `TENS` dictionary of the source. -/
def TENS : List (String × Nat) :=
  [("двадцать", 20), ("тридцать", 30), ("сорок", 40), ("пятьдесят", 50),
   ("шестьдесят", 60), ("семьдесят", 70), ("восемьдесят", 80), ("девяносто", 90)]

/-- The `HUNDREDS` dictionary of the source (value-keyed). -/
def HUNDREDS : List (Nat × String) :=
  [(100, "сто"), (200, "двести"), (300, "триста"), (400, "четыреста"),
   (500, "пятьсот"), (600, "шестьсот"), (700, "семьсот"), (800, "восемьсот"),
   (900, "девятьсот")]

/-- `HUNDREDS_R`, the word-keyed inversion of `HUNDREDS` built by the source. -/
def HUNDREDS_R : List (String × Nat) := HUNDREDS.map (fun p => (p.2, p.1))

/-- The `FEM_UNIT_ALIASES` dictionary of the source. -/
def FEM_UNIT_ALIASES : List (String × String) := [("одна", "один"), ("две", "два")]

/-- `FEM_UNIT_ALIASES.get(t, t)`: normalize a feminine alias before lookup. -/
def normTok (t : String) : String := (FEM_UNIT_ALIASES.lookup t).getD t

/-- The `DENOM_FORMS` dictionary of the source: power of ten ↦
(singular form, plural form) of the denominator word. -/
def DENOM_FORMS : List (Nat × (String × String)) :=
  [(10, ("десятая", "десятых")), (100, ("сотая", "сотых")),
   (1000, ("тысячная", "тысячных")), (10000, ("десятитысячная", "десятитысячных")),
   (100000, ("стотысячная", "стотысячных")), (1000000, ("миллионная", "миллионных"))]

/-- `words_to_int_0_99` of the source: parse 1–2 number words into 0..99. -/
def words_to_int_0_99 (tokens : List String) : Except Err Nat :=
  match tokens with
  | [] => .error .expectedNumber099
  | [t0] =>
    let t := normTok t0
    match UNITS.lookup t with
    | some v => .ok v
    | none =>
      match TEENS.lookup t with
      | some v => .ok v
      | none =>
        match TENS.lookup t with
        | some v => .ok v
        | none => .error .unknownNumber
  | [t1, t2] =>
    let t2n := normTok t2
    match TENS.lookup t1, UNITS.lookup t2n with
    | some a, some b => if b ≠ 0 then .ok (a + b) else .error .invalidNumber
    | _, _ => .error .invalidNumber
  | _ => .error .tooLongNumber

/-- One iteration of the token loop of `words_to_int_0_999`: state is
(total so far, used_teens flag). -/
def w999_step (st : Nat × Bool) (raw : String) : Except Err (Nat × Bool) :=
  let t := normTok raw
  match HUNDREDS_R.lookup t with
  | some v => .ok (st.1 + v, st.2)
  | none =>
    match TEENS.lookup t with
    | some v => if st.2 then .error .duplicateTeens else .ok (st.1 + v, true)
    | none =>
      match TENS.lookup t with
      | some v => .ok (st.1 + v, st.2)
      | none =>
        match UNITS.lookup t with
        | some v => .ok (st.1 + v, st.2)
        | none => .error .unknownNumberToken

/-- The `for raw in tokens` loop of `words_to_int_0_999`. -/
def w999_run (tokens : List String) (st : Nat × Bool) : Except Err (Nat × Bool) :=
  match tokens with
  | [] => .ok st
  | t :: rest =>
    match w999_step st t with
    | .ok st2 => w999_run rest st2
    | .error e => .error e

/-- `words_to_int_0_999` of the source (`total < 0` is vacuous over `Nat`). -/
def words_to_int_0_999 (tokens : List String) : Except Err Nat :=
  if tokens.isEmpty then .error .expectedNumber0999
  else
    match w999_run tokens (0, false) with
    | .error e => .error e
    | .ok st => if st.1 ≤ 999 then .ok st.1 else .error .outOfRange999

/-- Membership test `t in ("тысяча", "тысячи", "тысяч")` of the source. -/
def isThousandTok (t : String) : Bool :=
  t = "тысяча" || t = "тысячи" || t = "тысяч"

/-- Index of the first token satisfying `p` (the source's
`for i, t in enumerate(tokens): ... break` search, and `tokens.index`). -/
def find_first_idx (p : String → Bool) : List String → Option Nat
  | [] => none
  | w :: rest => if p w then some 0 else (find_first_idx p rest).map (· + 1)

/-- `words_to_int_0_999999` of the source: optional thousands segment. -/
def words_to_int_0_999999 (tokens : List String) : Except Err Nat :=
  if tokens.isEmpty then .error .expectedNumber0999999
  else
    match find_first_idx isThousandTok tokens with
    | none => words_to_int_0_999 tokens
    | some i =>
      let left := tokens.take i
      let right := tokens.drop (i + 1)
      match (if left.isEmpty then .ok 1 else words_to_int_0_999 left : Except Err Nat) with
      | .error e => .error e
      | .ok thousands =>
        match (if right.isEmpty then .ok 0 else words_to_int_0_999 right : Except Err Nat) with
        | .error e => .error e
        | .ok remainder =>
          let total := thousands * 1000 + remainder
          if total ≤ 999999 then .ok total else .error .outOfRange999999

/-- Python's `str.startswith`: the pattern's characters are a prefix of the
string's characters. -/
def str_starts_with (s pre : String) : Bool := pre.data.isPrefixOf s.data

/-- `_denominator_from_word` of the source (prefix classification, checked in
the source's priority order). -/
def denominator_from_word (w : String) : Option Nat :=
  if str_starts_with w "миллион" then some 1000000
  else if str_starts_with w "стотысяч" then some 100000
  else if str_starts_with w "десятитысяч" then some 10000
  else if str_starts_with w "тысяч" then some 1000
  else if str_starts_with w "сот" then some 100
  else if str_starts_with w "десят" then some 10
  else none

/-- `parse_number` of the source: integer span or mixed span split at the
first `"и"` token, returning an exact rational. -/
def parse_number (tokens : List String) : Except Err ℚ :=
  if tokens.isEmpty then .error .expectedNumberTokens
  else
    match find_first_idx (· = "и") tokens with
    | some i =>
      let int_part_tokens := tokens.take i
      let frac_tokens := tokens.drop (i + 1)
      if int_part_tokens.isEmpty ∨ frac_tokens.length < 2 then .error .invalidDecimalFormat
      else
        match words_to_int_0_99 int_part_tokens with
        | .error e => .error e
        | .ok integer =>
          let frac_num_tokens := frac_tokens.dropLast
          let dword := frac_tokens.getLastD ""
          match denominator_from_word dword with
          | none => .error .unknownDenominatorWord
          | some denom =>
            match (if 1000 ≤ denom then words_to_int_0_999999 frac_num_tokens
                   else words_to_int_0_99 frac_num_tokens : Except Err Nat) with
            | .error e => .error e
            | .ok frac_num =>
              if frac_num < denom then
                .ok ((integer : ℚ) + (frac_num : ℚ) / (denom : ℚ))
              else .error .fractionOutOfBounds
    | none =>
      match words_to_int_0_99 tokens with
      | .error e => .error e
      | .ok integer => .ok (integer : ℚ)

/-- `UNITS_R` of the source (integer ↦ unit word; the default branch is
unreachable for the 0..9 keys of the source dictionary). -/
def UNITS_R (n : Nat) : String :=
  match n with
  | 0 => "ноль" | 1 => "один" | 2 => "два" | 3 => "три" | 4 => "четыре"
  | 5 => "пять" | 6 => "шесть" | 7 => "семь" | 8 => "восемь" | 9 => "девять"
  | _ => ""

/-- `TEENS_R` of the source. -/
def TEENS_R (n : Nat) : String :=
  match n with
  | 10 => "десять" | 11 => "одиннадцать" | 12 => "двенадцать"
  | 13 => "тринадцать" | 14 => "четырнадцать" | 15 => "пятнадцать"
  | 16 => "шестнадцать" | 17 => "семнадцать" | 18 => "восемнадцать"
  | 19 => "девятнадцать" | _ => ""

/-- `TENS_R` of the source. -/
def TENS_R (n : Nat) : String :=
  match n with
  | 20 => "двадцать" | 30 => "тридцать" | 40 => "сорок" | 50 => "пятьдесят"
  | 60 => "шестьдесят" | 70 => "семьдесят" | 80 => "восемьдесят"
  | 90 => "девяносто" | _ => ""

/-- `HUNDREDS[n]` lookup used by `int_0_999_to_words`. -/
def HUNDREDS_W (n : Nat) : String :=
  match n with
  | 100 => "сто" | 200 => "двести" | 300 => "триста" | 400 => "четыреста"
  | 500 => "пятьсот" | 600 => "шестьсот" | 700 => "семьсот"
  | 800 => "восемьсот" | 900 => "девятьсот" | _ => ""

/-- `int_0_99_to_words` of the source, as its token list.  The source
recurses on `tens = n // 10 * 10` and `units = n % 10`, which land in the
`TENS_R` and `UNITS_R` branches; that recursion is unrolled here. -/
def int_0_99_to_words (n : Nat) : List String :=
  if n < 10 then [UNITS_R n]
  else if n ≤ 19 then [TEENS_R n]
  else if n % 10 = 0 then [TENS_R n]
  else [TENS_R (n / 10 * 10), UNITS_R (n % 10)]

/-- `int_0_999_to_words` of the source, as its token list. -/
def int_0_999_to_words (n : Nat) : List String :=
  if n < 100 then int_0_99_to_words n
  else HUNDREDS_W (n / 100 * 100) ::
    (if n % 100 ≠ 0 then int_0_99_to_words (n % 100) else [])

/-- `_thousands_form` of the source (the `THOUSAND_FORMS` dictionary is
inlined: one ↦ "тысяча", few ↦ "тысячи", many ↦ "тысяч"). -/
def thousands_form (count : Nat) : String :=
  let last_two := count % 100
  let last := count % 10
  if 11 ≤ last_two ∧ last_two ≤ 14 then "тысяч"
  else if last = 1 then "тысяча"
  else if last = 2 ∨ last = 3 ∨ last = 4 then "тысячи"
  else "тысяч"

/-- The trailing-word replacement "один"→"одна", "два"→"две" applied by
`_feminize_last_word` (and inlined inside `int_to_words_ru`). -/
def femWord (w : String) : String :=
  if w = "один" then "одна" else if w = "два" then "две" else w

/-- `_feminize_last_word` of the source: replace the trailing word of a
phrase by its feminine form. -/
def feminize_last_word : List String → List String
  | [] => []
  | [w] => [femWord w]
  | w :: rest => w :: feminize_last_word rest

/-- `int_to_words_ru` of the source: non-negative integer to Russian words
(negative input cannot arise over `Nat`; values ≥ 1 000 000 raise). -/
def int_to_words_ru (n : Nat) : Except Err (List String) :=
  if n = 0 then .ok ["ноль"]
  else if n < 100 then .ok (int_0_99_to_words n)
  else if n < 1000 then .ok (int_0_999_to_words n)
  else if n < 1000000 then
    let thousands := n / 1000
    let remainder := n % 1000
    let th_words := feminize_last_word (int_0_999_to_words thousands)
    let th_part := th_words ++ [thousands_form thousands]
    .ok (if remainder ≠ 0 then th_part ++ int_0_999_to_words remainder else th_part)
  else .error .unsupportedMagnitude

/-- `_denom_word` of the source: denominator word for a supported power of
ten, singular iff the numerator's last two digits end in 1 but are not 11. -/
def denom_word (denom numerator : Nat) : Except Err String :=
  match DENOM_FORMS.lookup denom with
  | none => .error .unsupportedDenominator
  | some forms =>
    let last_two := numerator % 100
    if last_two % 10 = 1 ∧ last_two ≠ 11 then .ok forms.1 else .ok forms.2

/-- `_digits_to_words` of the source; the digit string is carried as the
list of its digit values. -/
def digits_to_words (ds : List Nat) : List String := ds.map UNITS_R

/-- Fuelled body of `_count_factor`'s `while n % p == 0 and n > 0` loop.
The extra `2 ≤ p` guard only excludes `p ∈ {0, 1}`, for which the source
would diverge or raise; both call sites use `p ∈ {2, 5}`. -/
def count_factor_fuel : Nat → Nat → Nat → Nat
  | 0, _, _ => 0
  | fuel + 1, n, p =>
    if n % p = 0 ∧ 0 < n ∧ 2 ≤ p then 1 + count_factor_fuel fuel (n / p) p else 0

/-- `_count_factor` of the source.  Fuel `n` suffices: every iteration
divides `n` by `p ≥ 2`, so the loop runs at most `n` times. -/
def count_factor (n p : Nat) : Nat := count_factor_fuel n n p

/-- The long-division cycle-search loop of `rational_to_words`
(`while r and pos < 200`), with `fuel = 200 - pos` so that the initial call
has fuel 200.  `seen` is the remainder ↦ position dictionary, `digits` the
digits emitted so far; on a repeated remainder the digits from its first
position are returned, otherwise (`r = 0` or the 200-step cap) all emitted
digits are returned — the `else` branch of the loop. -/
def period_loop (q : Nat) : Nat → Nat → Nat → List (Nat × Nat) → List Nat → List Nat
  | 0, _, _, _, digits => digits
  | fuel + 1, r, pos, seen, digits =>
    if r = 0 then digits
    else
      match seen.lookup r with
      | some start => digits.drop start
      | none =>
        let r10 := r * 10
        period_loop q fuel (r10 % q) (pos + 1) ((r, pos) :: seen) (digits ++ [r10 / q])

/-- The repeating-part block appended by `rational_to_words` when the
post-finite remainder `r` is non-zero: the detected cycle, truncated to at
most 4 digits, spelled digit by digit and closed with "в периоде". -/
def period_block (q r : Nat) : List String :=
  "и" :: digits_to_words ((period_loop q 200 r 0 [] []).take 4) ++ ["в", "периоде"]

/-- `rational_to_words` of the source, as a token list.  `x.num.toNat` is
faithful because the negative case has already been rejected. -/
def rational_to_words (x : ℚ) : Except Err (List String) :=
  if x < 0 then .error .negativeResult
  else
    let int_part := x.num.toNat / x.den
    let rem := x.num.toNat % x.den
    if rem = 0 then int_to_words_ru int_part
    else
      let q := x.den
      let c2 := count_factor q 2
      let c5 := count_factor q 5
      let k := max c2 c5
      let pow10 := if 0 < k then 10 ^ k else 1
      let d := rem * pow10 / q
      let r := rem * pow10 % q
      match int_to_words_ru int_part with
      | .error e => .error e
      | .ok intWords =>
        match (if 0 < k ∧ 0 < d then
                 match denom_word pow10 d with
                 | .error e => .error e
                 | .ok dw =>
                   match int_to_words_ru d with
                   | .error e => .error e
                   | .ok dWords => .ok ("и" :: feminize_last_word dWords ++ [dw])
               else .ok [] : Except Err (List String)) with
        | .error e => .error e
        | .ok finBlock =>
          .ok (intWords ++ finBlock ++ (if r ≠ 0 then period_block q r else []))

/-- `ParsedExpr` of the source. -/
structure ParsedExpr where
  left : ℚ
  op : String
  right : ℚ
  deriving DecidableEq, Repr

/-- `OP_PATTERNS` of the source, in its priority order. -/
def OP_PATTERNS : List (List String × String) :=
  [(["остаток", "от", "деления", "на"], "%"),
   (["разделить", "на"], "/"),
   (["умножить", "на"], "*"),
   (["остаток", "от", "деления"], "%"),
   (["разделить"], "/"),
   (["умножить"], "*"),
   (["плюс"], "+"),
   (["минус"], "-"),
   (["остаток"], "%")]

/-- The inner pattern loop of `parse_expression` at position `i`:
`i + L <= len(tokens) and tokens[i:i+L] == pat`, first match in
`OP_PATTERNS` order wins; result is (symbol, pattern length). -/
def match_at (tokens : List String) (i : Nat) : Option (String × Nat) :=
  OP_PATTERNS.findSome? fun ps =>
    if i + ps.1.length ≤ tokens.length ∧ (tokens.drop i).take ps.1.length = ps.1
    then some (ps.2, ps.1.length) else none

/-- The outer position loop of `parse_expression`; the shadow list argument
makes the recursion structural and is always `tokens.drop i`. -/
def scan_from (tokens : List String) : Nat → List String → Option (Nat × String × Nat)
  | _, [] => none
  | i, _ :: rest =>
    match match_at tokens i with
    | some sl => some (i, sl.1, sl.2)
    | none => scan_from tokens (i + 1) rest

/-- The full `for i in range(len(tokens))` scan of `parse_expression`:
(position, operation symbol, pattern length) of the first match. -/
def scan_op (tokens : List String) : Option (Nat × String × Nat) :=
  scan_from tokens 0 tokens

/-- Lowercasing as Python's `str.lower` acts on the alphabet this program
consumes (ASCII letters and the Russian alphabet). -/
def ruLower (c : Char) : Char :=
  if 'A' ≤ c ∧ c ≤ 'Z' then Char.ofNat (c.toNat + 32)
  else if 'А' ≤ c ∧ c ≤ 'Я' then Char.ofNat (c.toNat + 32)
  else if c = 'Ё' then 'ё'
  else c

/-- Whitespace splitter: `expr.strip().lower().split()` produces the
non-empty maximal runs of non-whitespace characters, lowercased. -/
def tokenizeChars : List Char → List Char → List String
  | cur, [] => if cur.isEmpty then [] else [⟨cur.reverse⟩]
  | cur, c :: cs =>
    if c.isWhitespace then
      (if cur.isEmpty then [] else [⟨cur.reverse⟩]) ++ tokenizeChars [] cs
    else tokenizeChars (c :: cur) cs

/-- `expr.strip().lower().split()` of the source. -/
def tokenize (s : String) : List String := tokenizeChars [] (s.data.map ruLower)

/-- `parse_expression` of the source. -/
def parse_expression (expr : String) : Except Err ParsedExpr :=
  let tokens := tokenize expr
  if tokens.isEmpty then .error .emptyExpression
  else
    match scan_op tokens with
    | none => .error .operationNotFound
    | some isl =>
      let left_tokens := tokens.take isl.1
      let right_tokens := tokens.drop (isl.1 + isl.2.2)
      if left_tokens.isEmpty ∨ right_tokens.isEmpty then .error .invalidFormat
      else
        match parse_number left_tokens with
        | .error e => .error e
        | .ok a =>
          match parse_number right_tokens with
          | .error e => .error e
          | .ok b => .ok ⟨a, isl.2.1, b⟩

/-- Python's `Fraction.__mod__`: `a % b = a - b * (a // b)` with floor
division. -/
def pymod (a b : ℚ) : ℚ := a - b * (⌊a / b⌋ : ℚ)

/-- Truncation of a rational toward zero (`trunc`), via the reduced
numerator and denominator. -/
def qtrunc (q : ℚ) : ℤ := q.num.tdiv q.den

/-- The operation dispatch of `calc` on an already-parsed expression. -/
def eval_op (op : String) (a b : ℚ) : Except Err ℚ :=
  if op = "+" then .ok (a + b)
  else if op = "-" then .ok (a - b)
  else if op = "*" then .ok (a * b)
  else if op = "/" then (if b = 0 then .error .divisionByZero else .ok (a / b))
  else if op = "%" then (if b = 0 then .error .moduloByZero else .ok (pymod a b))
  else .error .unknownOperation

/-- The evaluation-and-rendering tail of `calc` after `parse_expression`. -/
def eval_parsed (p : ParsedExpr) : Except Err String :=
  match eval_op p.op p.left p.right with
  | .error e => .error e
  | .ok res =>
    match rational_to_words res with
    | .error e => .error e
    | .ok ws => .ok (String.intercalate " " ws)

/-- `calc` of the source (renamed: `calc` is a Lean keyword). -/
def calc_expr (expr : String) : Except Err String :=
  match parse_expression expr with
  | .error e => .error e
  | .ok parsed => eval_parsed parsed

/-! ### Helper lemmas -/

theorem qtrunc_eq_floor_of_nonneg (q : ℚ) (h : 0 ≤ q) : qtrunc q = ⌊q⌋ := by
  rw [Rat.floor_def, qtrunc]
  exact Int.tdiv_eq_ediv (Rat.num_nonneg.mpr h) (by exact_mod_cast Nat.zero_le q.den)

theorem pymod_eq_fract (a b : ℚ) (hb : b ≠ 0) : pymod a b = b * Int.fract (a / b) := by
  rw [pymod, Int.fract, mul_sub, mul_div_cancel₀ a hb]

theorem eval_op_mod (a b : ℚ) (hb : b ≠ 0) : eval_op "%" a b = .ok (pymod a b) := by
  unfold eval_op
  rw [if_neg (by decide), if_neg (by decide), if_neg (by decide), if_neg (by decide),
    if_pos rfl, if_neg hb]

/-! ### Claim theorems (first batch) -/

set_option maxRecDepth 10000

/-- C1 (counterexample): the full-range integer round-trip fails already at
`n = 100`: `int_to_words_ru 100 = ["сто"]`, and `parse_number` handles plain
integer spans with `words_to_int_0_99`, which does not know hundred words. -/
theorem c1_counterexample :
    (int_to_words_ru 100).bind parse_number = .error .unknownNumber := by
  with_unfolding_all decide

/-- C1 (amended): for every integer n in [0, 99], rendering n with
`int_to_words_ru` and parsing the rendered words with `parse_number`
succeeds and returns exactly n; plain integer operand spans are accepted by
`parse_number` only up to 99. -/
theorem c1_roundtrip_integers_amended :
    ∀ n < 100, (int_to_words_ru n).bind parse_number = .ok (n : ℚ) := by
  with_unfolding_all decide

/-- Witness for `c1_roundtrip_integers_amended` at n = 42. -/
theorem c1_roundtrip_integers_witness :
    42 < 100 ∧ (int_to_words_ru 42).bind parse_number = .ok ((42 : Nat) : ℚ) :=
  ⟨by decide, c1_roundtrip_integers_amended 42 (by decide)⟩

/-- C2 (counterexample): the spec's example input is rejected, not
evaluated: the integer-part span "одна целая" reaches `words_to_int_0_99`,
whose two-token branch requires a tens word followed by a unit word, and
"целая" is not in any vocabulary, so the pipeline fails. -/
theorem c2_counterexample :
    calc_expr "одна целая и пять десятых разделить на три" = .error .invalidNumber := by
  with_unfolding_all decide

/-- C2 (amended): without the unsupported word "целая" the same mixed-number
division is evaluated by the full pipeline: both operand spans parse, exact
rational division applies, and the result is rendered as Russian words. -/
theorem c2_mixed_division_amended :
    calc_expr "одна и пять десятых разделить на три" = .ok "ноль и пять десятых" := by
  with_unfolding_all decide

/-- C6: for non-negative operands with `right > 0`, Modulo returns exactly
`left - right * trunc(left/right)` and the result lies in `[0, right)`.
(The source's `a % b` is Python's floor-based `Fraction.__mod__`, which for
non-negative operands coincides with the truncating definition.) -/
theorem c6_modulo_spec (a b : ℚ) (h1 : 0 ≤ a) (h2 : 0 < b) :
    eval_op "%" a b = .ok (a - b * (qtrunc (a / b) : ℚ)) ∧
    ∀ r, eval_op "%" a b = .ok r → 0 ≤ r ∧ r < b := by
  have hop := eval_op_mod a b h2.ne'
  have hq : qtrunc (a / b) = ⌊a / b⌋ := qtrunc_eq_floor_of_nonneg _ (div_nonneg h1 h2.le)
  have hfr := pymod_eq_fract a b h2.ne'
  refine ⟨by rw [hop]; simp only [pymod, hq], ?_⟩
  intro r hr
  rw [hop] at hr
  have hrr : pymod a b = r := by injection hr
  subst hrr
  constructor
  · rw [hfr]
    exact mul_nonneg h2.le (Int.fract_nonneg _)
  · rw [hfr]
    calc b * Int.fract (a / b) < b * 1 := (mul_lt_mul_left h2).mpr (Int.fract_lt_one _)
      _ = b := mul_one b

/-- Witness for `c6_modulo_spec` at a = 7, b = 2 (7 mod 2 = 1). -/
theorem c6_modulo_spec_witness :
    ((0 : ℚ) ≤ 7 ∧ (0 : ℚ) < 2) ∧
    (eval_op "%" (7 : ℚ) 2 = .ok ((7 : ℚ) - 2 * (qtrunc ((7 : ℚ) / 2) : ℚ)) ∧
     ∀ r, eval_op "%" (7 : ℚ) 2 = .ok r → 0 ≤ r ∧ r < 2) :=
  ⟨⟨by with_unfolding_all decide, by with_unfolding_all decide⟩,
   c6_modulo_spec 7 2 (by with_unfolding_all decide) (by with_unfolding_all decide)⟩

/-- C8: Divide and Modulo with `right = 0` deterministically fail with the
division-by-zero / modulo-by-zero errors and never return a value. -/
theorem c8_division_by_zero (a b : ℚ) (h : b = 0) :
    eval_parsed ⟨a, "/", b⟩ = .error .divisionByZero ∧
    eval_parsed ⟨a, "%", b⟩ = .error .moduloByZero := by
  subst h
  have hdiv : eval_op "/" a 0 = .error .divisionByZero := by
    unfold eval_op
    rw [if_neg (by decide), if_neg (by decide), if_neg (by decide), if_pos rfl, if_pos rfl]
  have hmod : eval_op "%" a 0 = .error .moduloByZero := by
    unfold eval_op
    rw [if_neg (by decide), if_neg (by decide), if_neg (by decide), if_neg (by decide),
      if_pos rfl, if_pos rfl]
  constructor
  · simp only [eval_parsed, hdiv]
  · simp only [eval_parsed, hmod]

/-- Witness for `c8_division_by_zero` at a = 3, b = 0. -/
theorem c8_division_by_zero_witness :
    (0 : ℚ) = 0 ∧
    (eval_parsed ⟨3, "/", 0⟩ = .error .divisionByZero ∧
     eval_parsed ⟨3, "%", 0⟩ = .error .moduloByZero) :=
  ⟨rfl, c8_division_by_zero 3 0 rfl⟩

/-- C9: a Subtract whose exact difference is negative fails with the
negative-result error (the `NotImplementedError` guard of
`rational_to_words`), so the pipeline never renders a negative value. -/
theorem c9_negative_subtraction (a b : ℚ) (h1 : 0 ≤ a) (h2 : 0 ≤ b)
    (h : a - b < 0) : eval_parsed ⟨a, "-", b⟩ = .error .negativeResult := by
  have hop : eval_op "-" a b = .ok (a - b) := by
    unfold eval_op
    rw [if_neg (by decide), if_pos rfl]
  have hrw : rational_to_words (a - b) = .error .negativeResult := by
    unfold rational_to_words
    rw [if_pos h]
  simp only [eval_parsed, hop, hrw]

/-- Witness for `c9_negative_subtraction` at a = 0, b = 1. -/
theorem c9_negative_subtraction_witness :
    ((0 : ℚ) ≤ 0 ∧ (0 : ℚ) ≤ 1 ∧ (0 : ℚ) - 1 < 0) ∧
    eval_parsed ⟨0, "-", 1⟩ = .error .negativeResult :=
  ⟨⟨le_refl 0, by with_unfolding_all decide, by with_unfolding_all decide⟩,
   c9_negative_subtraction 0 1 (le_refl 0) (by with_unfolding_all decide)
     (by with_unfolding_all decide)⟩

/-- C10: `rational_to_words` is not injective: 1/30 has one finite decimal
digit (k = 1) that is zero, so the finite block is omitted entirely, and the
distinct rationals 1/30 and 1/3 render to the identical phrase
"ноль и три в периоде". -/
theorem c10_not_injective :
    rational_to_words ((1 : ℚ) / 30) = .ok ["ноль", "и", "три", "в", "периоде"] ∧
    rational_to_words ((1 : ℚ) / 3) = .ok ["ноль", "и", "три", "в", "периоде"] ∧
    (1 : ℚ) / 30 ≠ (1 : ℚ) / 3 := by
  refine ⟨?_, ?_, ?_⟩ <;> with_unfolding_all decide

/-! ### Operator matcher lemmas (C5) -/

theorem match_at_spec {tokens : List String} {i : Nat} {sym : String} {L : Nat}
    (h : match_at tokens i = some (sym, L)) :
    ∃ ps ∈ OP_PATTERNS, ps.2 = sym ∧ ps.1.length = L ∧
      i + L ≤ tokens.length ∧ (tokens.drop i).take L = ps.1 := by
  unfold match_at at h
  obtain ⟨ps, hmem, hps⟩ := List.exists_of_findSome?_eq_some h
  refine ⟨ps, hmem, ?_⟩
  by_cases hc : i + ps.1.length ≤ tokens.length ∧ (tokens.drop i).take ps.1.length = ps.1
  · rw [if_pos hc] at hps
    obtain ⟨rfl, rfl⟩ : ps.2 = sym ∧ ps.1.length = L := by
      constructor <;> injection hps with h1 <;> [exact congrArg Prod.fst h1;
        exact congrArg Prod.snd h1]
    exact ⟨rfl, rfl, hc.1, hc.2⟩
  · rw [if_neg hc] at hps
    exact absurd hps (by simp)

theorem match_at_bound {tokens : List String} {i : Nat} {sym : String} {L : Nat}
    (h : match_at tokens i = some (sym, L)) : i < tokens.length ∧ 1 ≤ L := by
  obtain ⟨ps, hmem, -, hlen, hle, -⟩ := match_at_spec h
  have hpos : 1 ≤ ps.1.length := by
    revert hmem
    unfold OP_PATTERNS
    intro hmem
    fin_cases hmem <;> decide
  omega

theorem scan_from_sound :
    ∀ (rest tokens : List String) (i j : Nat) (sym : String) (L : Nat),
      rest = tokens.drop i →
      scan_from tokens i rest = some (j, sym, L) →
      match_at tokens j = some (sym, L) ∧ i ≤ j ∧
        ∀ m, i ≤ m → m < j → match_at tokens m = none := by
  intro rest
  induction rest with
  | nil =>
    intro tokens i j sym L _ hscan
    exact absurd hscan (by simp [scan_from])
  | cons w rest ih =>
    intro tokens i j sym L hdrop hscan
    unfold scan_from at hscan
    cases hmatch : match_at tokens i with
    | some sl =>
      rw [hmatch] at hscan
      obtain ⟨rfl, rfl, rfl⟩ : i = j ∧ sl.1 = sym ∧ sl.2 = L := by
        injection hscan with h1
        injection h1 with h2 h3
        exact ⟨h2, congrArg Prod.fst h3, congrArg Prod.snd h3⟩
      refine ⟨by rw [hmatch], le_refl i, ?_⟩
      intro m him hmi
      omega
    | none =>
      rw [hmatch] at hscan
      have hdrop2 : rest = tokens.drop (i + 1) := by
        rw [← List.tail_drop, ← hdrop]
        rfl
      obtain ⟨h1, h2, h3⟩ := ih tokens (i + 1) j sym L hdrop2 hscan
      refine ⟨h1, by omega, ?_⟩
      intro m him hmj
      rcases Nat.eq_or_lt_of_le him with heq | hlt
      · rwa [← heq]
      · exact h3 m hlt hmj

theorem scan_from_complete :
    ∀ (rest tokens : List String) (i j : Nat) (sym : String) (L : Nat),
      rest = tokens.drop i → i ≤ j →
      (∀ m, i ≤ m → m < j → match_at tokens m = none) →
      match_at tokens j = some (sym, L) →
      scan_from tokens i rest = some (j, sym, L) := by
  intro rest
  induction rest with
  | nil =>
    intro tokens i j sym L hdrop hij _ hj
    have hb := match_at_bound hj
    have : tokens.length ≤ i := by
      have := congrArg List.length hdrop
      simp only [List.length_nil, List.length_drop] at this
      omega
    omega
  | cons w rest ih =>
    intro tokens i j sym L hdrop hij hnone hj
    rcases Nat.eq_or_lt_of_le hij with heq | hlt
    · subst heq
      unfold scan_from
      rw [hj]
    · unfold scan_from
      rw [hnone i (le_refl i) hlt]
      exact ih tokens (i + 1) j sym L
        (by rw [← List.tail_drop, ← hdrop]; rfl) hlt
        (fun m him hmj => hnone m (by omega) hmj) hj

theorem match_at_divide {tokens : List String} {i : Nat} {rest : List String}
    (h : tokens.drop i = "разделить" :: "на" :: rest) :
    match_at tokens i = some ("/", 2) := by
  have hlen : i + 2 ≤ tokens.length := by
    have hl := congrArg List.length h
    simp only [List.length_drop, List.length_cons] at hl
    omega
  unfold match_at OP_PATTERNS
  simp [List.findSome?_cons, h, hlen]

/-- C5 (counterexample): an input can contain adjacent "разделить" "на" and
still not have them matched as the Divide operator: the scan commits to an
earlier position, here "плюс" at position 1. -/
theorem c5_counterexample :
    scan_op ["два", "плюс", "три", "разделить", "на", "два"] =
      some (1, "+", 1) ∧
    List.drop 3 ["два", "плюс", "три", "разделить", "на", "два"] =
      "разделить" :: "на" :: ["два"] ∧
    ("+" : String) ≠ "/" := by
  refine ⟨by decide, by decide, by decide⟩

/-- C5 (amended): the matcher commits to the leftmost position at which any
pattern matches, using that position's highest-priority pattern (the first
match in `OP_PATTERNS` order); and whenever no pattern matches at any
position before an occurrence of adjacent "разделить" "на", the two-word
Divide pattern is matched there as one operator — never split — so the left
operand span is everything before it and the right span everything after
"на". -/
theorem c5_operator_matcher_amended :
    (∀ tokens i sym L, scan_op tokens = some (i, sym, L) →
      (∃ ps ∈ OP_PATTERNS, ps.2 = sym ∧ ps.1.length = L ∧
        i + L ≤ tokens.length ∧ (tokens.drop i).take L = ps.1) ∧
      (∀ m, m < i → match_at tokens m = none)) ∧
    (∀ tokens i rest, tokens.drop i = "разделить" :: "на" :: rest →
      (∀ m, m < i → match_at tokens m = none) →
      scan_op tokens = some (i, "/", 2) ∧
      tokens.take i ++ "разделить" :: "на" :: rest = tokens ∧
      tokens.drop (i + 2) = rest) := by
  constructor
  · intro tokens i sym L hscan
    obtain ⟨h1, -, h3⟩ := scan_from_sound tokens tokens 0 i sym L rfl hscan
    exact ⟨match_at_spec h1, fun m hm => h3 m (Nat.zero_le m) hm⟩
  · intro tokens i rest hdrop hnone
    have hm := match_at_divide hdrop
    refine ⟨scan_from_complete tokens tokens 0 i "/" 2 rfl (Nat.zero_le i)
      (fun m _ hmi => hnone m hmi) hm, ?_, ?_⟩
    · rw [← hdrop, List.take_append_drop]
    · rw [← List.tail_drop, ← List.tail_drop, hdrop]
      rfl

/-- Witness for `c5_operator_matcher_amended`: applying its second part at
the input "два разделить на три", where "разделить" sits at position 1 and
nothing matches at position 0. -/
theorem c5_operator_matcher_witness :
    (List.drop 1 ["два", "разделить", "на", "три"] =
      "разделить" :: "на" :: ["три"] ∧
     (∀ m, m < 1 → match_at ["два", "разделить", "на", "три"] m = none)) ∧
    (scan_op ["два", "разделить", "на", "три"] = some (1, "/", 2) ∧
     List.take 1 ["два", "разделить", "на", "три"] ++
       "разделить" :: "на" :: ["три"] = ["два", "разделить", "на", "три"] ∧
     List.drop (1 + 2) ["два", "разделить", "на", "три"] = ["три"]) :=
  ⟨⟨by decide, by decide⟩,
   c5_operator_matcher_amended.2 ["два", "разделить", "на", "три"] 1 ["три"]
     (by decide) (by decide)⟩

/-! ### Thousands rendering (C7) -/

/-- C7: for 1000 ≤ n ≤ 999999, `int_to_words_ru` renders the thousands count
with feminine agreement on its trailing word, followed by the form of
"тысяча" selected by: count mod 100 in [11,14] → "тысяч"; else count mod 10
= 1 → "тысяча"; count mod 10 in {2,3,4} → "тысячи"; else "тысяч"; then the
remainder when non-zero.  In particular 21000 renders as
"двадцать одна тысяча" and 11000 as "одиннадцать тысяч". -/
theorem c7_thousands_rendering :
    (∀ n, 1000 ≤ n → n ≤ 999999 →
      int_to_words_ru n = .ok (feminize_last_word (int_0_999_to_words (n / 1000)) ++
        [if 11 ≤ n / 1000 % 100 ∧ n / 1000 % 100 ≤ 14 then "тысяч"
         else if n / 1000 % 10 = 1 then "тысяча"
         else if n / 1000 % 10 = 2 ∨ n / 1000 % 10 = 3 ∨ n / 1000 % 10 = 4 then "тысячи"
         else "тысяч"] ++
        (if n % 1000 ≠ 0 then int_0_999_to_words (n % 1000) else []))) ∧
    int_to_words_ru 21000 = .ok ["двадцать", "одна", "тысяча"] ∧
    int_to_words_ru 11000 = .ok ["одиннадцать", "тысяч"] := by
  refine ⟨?_, by decide, by decide⟩
  intro n h1 h2
  have hform : thousands_form (n / 1000) =
      (if 11 ≤ n / 1000 % 100 ∧ n / 1000 % 100 ≤ 14 then "тысяч"
       else if n / 1000 % 10 = 1 then "тысяча"
       else if n / 1000 % 10 = 2 ∨ n / 1000 % 10 = 3 ∨ n / 1000 % 10 = 4 then "тысячи"
       else "тысяч") := by
    unfold thousands_form
    rfl
  unfold int_to_words_ru
  rw [if_neg (by omega), if_neg (by omega), if_neg (by omega), if_pos (by omega)]
  simp only [hform, List.append_assoc]
  by_cases hr : n % 1000 ≠ 0
  · rw [if_pos hr, if_pos hr]
  · rw [if_neg hr, if_neg hr, List.append_nil]

/-- Witness for `c7_thousands_rendering`: its universally quantified part
applied at n = 21000. -/
theorem c7_thousands_rendering_witness :
    (1000 ≤ 21000 ∧ 21000 ≤ 999999) ∧
    int_to_words_ru 21000 = .ok (feminize_last_word (int_0_999_to_words (21000 / 1000)) ++
      [if 11 ≤ 21000 / 1000 % 100 ∧ 21000 / 1000 % 100 ≤ 14 then "тысяч"
       else if 21000 / 1000 % 10 = 1 then "тысяча"
       else if 21000 / 1000 % 10 = 2 ∨ 21000 / 1000 % 10 = 3 ∨ 21000 / 1000 % 10 = 4 then "тысячи"
       else "тысяч"] ++
      (if 21000 % 1000 ≠ 0 then int_0_999_to_words (21000 % 1000) else [])) :=
  ⟨⟨by decide, by decide⟩,
   c7_thousands_rendering.1 21000 (by decide) (by decide)⟩

/-! ### Properties of `count_factor` -/

theorem count_factor_fuel_le : ∀ (fuel n p : Nat), count_factor_fuel fuel n p ≤ fuel := by
  intro fuel
  induction fuel with
  | zero => intro n p; exact Nat.le_refl 0
  | succ f ih =>
    intro n p
    unfold count_factor_fuel
    split
    · have := ih (n / p) p
      omega
    · omega

theorem count_factor_fuel_zero (f p : Nat) : count_factor_fuel f 0 p = 0 := by
  cases f with
  | zero => rfl
  | succ f =>
    unfold count_factor_fuel
    rw [if_neg (by omega)]

theorem count_factor_fuel_eq :
    ∀ (n f1 f2 p : Nat), 2 ≤ p → n ≤ f1 → n ≤ f2 →
      count_factor_fuel f1 n p = count_factor_fuel f2 n p := by
  intro n
  induction n using Nat.strong_induction_on with
  | _ n ih =>
    intro f1 f2 p hp h1 h2
    rcases Nat.eq_zero_or_pos n with rfl | hn
    · rw [count_factor_fuel_zero, count_factor_fuel_zero]
    · obtain ⟨g1, rfl⟩ : ∃ g, f1 = g + 1 := ⟨f1 - 1, by omega⟩
      obtain ⟨g2, rfl⟩ : ∃ g, f2 = g + 1 := ⟨f2 - 1, by omega⟩
      unfold count_factor_fuel
      split
      · have hlt : n / p < n := Nat.div_lt_self hn (by omega)
        rw [ih (n / p) hlt g1 g2 p hp (by omega) (by omega)]
      · rfl

theorem count_factor_succ {n p : Nat} (hp : 2 ≤ p) (hn : 0 < n) (hd : n % p = 0) :
    count_factor n p = 1 + count_factor (n / p) p := by
  unfold count_factor
  obtain ⟨m, rfl⟩ : ∃ m, n = m + 1 := ⟨n - 1, by omega⟩
  conv_lhs => unfold count_factor_fuel
  rw [if_pos ⟨hd, hn, hp⟩]
  have hlt : (m + 1) / p < m + 1 := Nat.div_lt_self hn (by omega)
  rw [count_factor_fuel_eq ((m + 1) / p) m ((m + 1) / p) p hp (by omega) (le_refl _)]

theorem count_factor_not_dvd {n p : Nat} (h : n % p ≠ 0) : count_factor n p = 0 := by
  unfold count_factor
  cases n with
  | zero => rfl
  | succ m =>
    unfold count_factor_fuel
    rw [if_neg (by omega)]

theorem count_factor_le (n p : Nat) : count_factor n p ≤ n := count_factor_fuel_le n n p

theorem count_factor_two_pow (a b : Nat) : count_factor (2 ^ a * 5 ^ b) 2 = a := by
  induction a with
  | zero =>
    have hodd : (2 ^ 0 * 5 ^ b) % 2 ≠ 0 := by
      simp only [pow_zero, one_mul]
      intro h
      have h2 : (2 : Nat) ∣ 5 ^ b := Nat.dvd_of_mod_eq_zero h
      have := Nat.Prime.dvd_of_dvd_pow Nat.prime_two h2
      omega
    exact count_factor_not_dvd hodd
  | succ a ih =>
    have hpos : 0 < 2 ^ (a + 1) * 5 ^ b :=
      Nat.mul_pos (Nat.pos_pow_of_pos _ (by omega)) (Nat.pos_pow_of_pos _ (by omega))
    have heq : 2 ^ (a + 1) * 5 ^ b = 2 * (2 ^ a * 5 ^ b) := by ring
    have hd : (2 ^ (a + 1) * 5 ^ b) % 2 = 0 := by
      rw [heq]
      exact Nat.mul_mod_right 2 _
    rw [count_factor_succ (by omega) hpos hd, heq,
      Nat.mul_div_cancel_left _ (by omega : 0 < 2), ih]
    omega

theorem count_factor_five_pow (a b : Nat) : count_factor (2 ^ a * 5 ^ b) 5 = b := by
  induction b with
  | zero =>
    have hodd : (2 ^ a * 5 ^ 0) % 5 ≠ 0 := by
      simp only [pow_zero, mul_one]
      intro h
      have h2 : (5 : Nat) ∣ 2 ^ a := Nat.dvd_of_mod_eq_zero h
      have := Nat.Prime.dvd_of_dvd_pow (by norm_num : Nat.Prime 5) h2
      omega
    exact count_factor_not_dvd hodd
  | succ b ih =>
    have hpos : 0 < 2 ^ a * 5 ^ (b + 1) :=
      Nat.mul_pos (Nat.pos_pow_of_pos _ (by omega)) (Nat.pos_pow_of_pos _ (by omega))
    have heq : 2 ^ a * 5 ^ (b + 1) = 5 * (2 ^ a * 5 ^ b) := by ring
    have hd : (2 ^ a * 5 ^ (b + 1)) % 5 = 0 := by
      rw [heq]
      exact Nat.mul_mod_right 5 _
    rw [count_factor_succ (by omega) hpos hd, heq,
      Nat.mul_div_cancel_left _ (by omega : 0 < 5), ih]
    omega

theorem dvd_ten_pow_structure {q : Nat} (hq : q ∣ 10 ^ 6) :
    ∃ a b, a ≤ 6 ∧ b ≤ 6 ∧ q = 2 ^ a * 5 ^ b := by
  have h : q ∣ 2 ^ 6 * 5 ^ 6 := by
    have : (10 : Nat) ^ 6 = 2 ^ 6 * 5 ^ 6 := by norm_num
    rwa [this] at hq
  obtain ⟨d1, d2, hd1, hd2, rfl⟩ := exists_dvd_and_dvd_of_dvd_mul h
  obtain ⟨a, ha, rfl⟩ := (Nat.dvd_prime_pow Nat.prime_two).1 hd1
  obtain ⟨b, hb, rfl⟩ := (Nat.dvd_prime_pow (by norm_num : Nat.Prime 5)).1 hd2
  exact ⟨a, b, ha, hb, rfl⟩

theorem two_five_dvd_ten_pow_self {a b q : Nat} (h : q = 2 ^ a * 5 ^ b) :
    q ∣ 10 ^ q := by
  subst h
  have ha : a ≤ 2 ^ a * 5 ^ b := by
    have h1 : a < 2 ^ a := Nat.lt_two_pow a
    have h2 : 2 ^ a ≤ 2 ^ a * 5 ^ b :=
      Nat.le_mul_of_pos_right _ (Nat.pos_pow_of_pos _ (by omega))
    omega
  have hb : b ≤ 2 ^ a * 5 ^ b := by
    have hb5 : b < 5 ^ b := Nat.lt_pow_self (by omega) b
    calc b ≤ 5 ^ b := hb5.le
      _ ≤ 2 ^ a * 5 ^ b := Nat.le_mul_of_pos_left _ (Nat.pos_pow_of_pos _ (by omega))
  have h10 : (10 : Nat) ^ (2 ^ a * 5 ^ b) = 2 ^ (2 ^ a * 5 ^ b) * 5 ^ (2 ^ a * 5 ^ b) := by
    rw [show (10 : Nat) = 2 * 5 by norm_num, mul_pow]
  rw [h10]
  exact mul_dvd_mul (pow_dvd_pow 2 ha) (pow_dvd_pow 5 hb)

/-! ### Render/parse round-trip infrastructure -/

theorem normTok_femWord (w : String) : normTok (femWord w) = normTok w := by
  unfold femWord
  by_cases h1 : w = "один"
  · subst h1
    decide
  · rw [if_neg h1]
    by_cases h2 : w = "два"
    · subst h2
      decide
    · rw [if_neg h2]

theorem w999_step_femWord (st : Nat × Bool) (w : String) :
    w999_step st (femWord w) = w999_step st w := by
  unfold w999_step
  rw [normTok_femWord]

theorem w999_run_feminize (l : List String) :
    ∀ st, w999_run (feminize_last_word l) st = w999_run l st := by
  induction l with
  | nil => intro st; rfl
  | cons w rest ih =>
    intro st
    cases rest with
    | nil =>
      show w999_run [femWord w] st = w999_run [w] st
      simp only [w999_run, w999_step_femWord]
    | cons w2 rest2 =>
      show w999_run (w :: feminize_last_word (w2 :: rest2)) st =
        w999_run (w :: w2 :: rest2) st
      simp only [w999_run]
      cases hstep : w999_step st w with
      | ok st2 => exact ih st2
      | error e => rfl

theorem words_to_int_0_999_feminize (l : List String) :
    words_to_int_0_999 (feminize_last_word l) = words_to_int_0_999 l := by
  have hemp : (feminize_last_word l).isEmpty = l.isEmpty := by
    cases l with
    | nil => rfl
    | cons a rest => cases rest <;> rfl
  unfold words_to_int_0_999
  rw [hemp, w999_run_feminize]

theorem parse999_render999 :
    ∀ n < 1000, words_to_int_0_999 (int_0_999_to_words n) = .ok n := by
  decide

theorem parse999_render999_fem (n : Nat) (h : n < 1000) :
    words_to_int_0_999 (feminize_last_word (int_0_999_to_words n)) = .ok n := by
  rw [words_to_int_0_999_feminize]
  exact parse999_render999 n h

theorem parse99_render99_fem :
    ∀ n < 100, words_to_int_0_99 (feminize_last_word (int_0_99_to_words n)) = .ok n := by
  decide

theorem render999_no_thousand :
    ∀ n < 1000, (int_0_999_to_words n).all (fun w => !isThousandTok w) = true := by
  decide

theorem render999_no_thousand_mem {n : Nat} (h : n < 1000) :
    ∀ w ∈ int_0_999_to_words n, isThousandTok w = false := by
  intro w hw
  have := render999_no_thousand n h
  rw [List.all_eq_true] at this
  simpa using this w hw

theorem isThousandTok_femWord {w : String} (h : isThousandTok w = false) :
    isThousandTok (femWord w) = false := by
  unfold femWord
  by_cases h1 : w = "один"
  · subst h1
    decide
  · rw [if_neg h1]
    by_cases h2 : w = "два"
    · subst h2
      decide
    · rw [if_neg h2]
      exact h

theorem feminize_no_thousand {l : List String}
    (h : ∀ w ∈ l, isThousandTok w = false) :
    ∀ w ∈ feminize_last_word l, isThousandTok w = false := by
  induction l with
  | nil => intro w hw; simp [feminize_last_word] at hw
  | cons a rest ih =>
    cases rest with
    | nil =>
      intro w hw
      simp only [feminize_last_word, List.mem_singleton] at hw
      subst hw
      exact isThousandTok_femWord (h a (by simp))
    | cons b r2 =>
      intro w hw
      rcases List.mem_cons.mp hw with rfl | hw2
      · exact h w (by simp)
      · exact ih (fun v hv => h v (List.mem_cons_of_mem a hv)) w hw2

theorem find_first_idx_none {p : String → Bool} {l : List String}
    (h : ∀ w ∈ l, p w = false) : find_first_idx p l = none := by
  induction l with
  | nil => rfl
  | cons a rest ih =>
    unfold find_first_idx
    rw [h a (by simp), if_neg (by simp), ih (fun w hw => h w (List.mem_cons_of_mem a hw))]
    rfl

theorem find_first_idx_append {p : String → Bool} {l1 : List String} {a : String}
    {l2 : List String} (h1 : ∀ w ∈ l1, p w = false) (ha : p a = true) :
    find_first_idx p (l1 ++ a :: l2) = some l1.length := by
  induction l1 with
  | nil =>
    show find_first_idx p (a :: l2) = some 0
    unfold find_first_idx
    rw [ha, if_pos rfl]
  | cons w r ih =>
    show find_first_idx p (w :: (r ++ a :: l2)) = some (r.length + 1)
    unfold find_first_idx
    rw [h1 w (by simp), if_neg (by simp),
      ih (fun v hv => h1 v (List.mem_cons_of_mem w hv))]
    rfl

theorem int_0_99_to_words_ne_nil (n : Nat) : int_0_99_to_words n ≠ [] := by
  unfold int_0_99_to_words
  split
  · simp
  · split
    · simp
    · split <;> simp

theorem int_0_999_to_words_ne_nil (n : Nat) : int_0_999_to_words n ≠ [] := by
  unfold int_0_999_to_words
  split
  · exact int_0_99_to_words_ne_nil n
  · simp

theorem feminize_ne_nil {l : List String} (h : l ≠ []) :
    feminize_last_word l ≠ [] := by
  cases l with
  | nil => exact absurd rfl h
  | cons a rest => cases rest <;> simp [feminize_last_word]

theorem feminize_append {l2 : List String} (h : l2 ≠ []) :
    ∀ l1, feminize_last_word (l1 ++ l2) = l1 ++ feminize_last_word l2 := by
  intro l1
  induction l1 with
  | nil => rfl
  | cons a r ih =>
    cases hcase : r ++ l2 with
    | nil => exact absurd (List.append_eq_nil.mp hcase).2 h
    | cons b bs =>
      show feminize_last_word (a :: (r ++ l2)) = a :: (r ++ feminize_last_word l2)
      rw [hcase]
      show a :: feminize_last_word (b :: bs) = a :: (r ++ feminize_last_word l2)
      rw [← hcase, ih]

theorem thousands_form_isThousand (c : Nat) :
    isThousandTok (thousands_form c) = true := by
  simp only [thousands_form]
  split_ifs <;> decide

theorem femWord_thousands_form (c : Nat) :
    femWord (thousands_form c) = thousands_form c := by
  simp only [thousands_form]
  split_ifs <;> decide

theorem roundtrip_small (n : Nat) (h : n < 1000) :
    words_to_int_0_999999 (feminize_last_word (int_0_999_to_words n)) = .ok n := by
  have hfv : ∀ w ∈ feminize_last_word (int_0_999_to_words n), isThousandTok w = false :=
    feminize_no_thousand (render999_no_thousand_mem h)
  have hne : feminize_last_word (int_0_999_to_words n) ≠ [] :=
    feminize_ne_nil (int_0_999_to_words_ne_nil n)
  unfold words_to_int_0_999999
  rw [if_neg (by simpa [List.isEmpty_iff] using hne), find_first_idx_none hfv]
  exact parse999_render999_fem n h

theorem render_roundtrip :
    ∀ m ≤ 999999, ∀ ws, int_to_words_ru m = .ok ws →
      words_to_int_0_999999 (feminize_last_word ws) = .ok m := by
  intro m hm ws hws
  unfold int_to_words_ru at hws
  by_cases h0 : m = 0
  · rw [if_pos h0] at hws
    obtain rfl : (["ноль"] : List String) = ws := by injection hws
    subst h0
    decide
  · rw [if_neg h0] at hws
    by_cases h100 : m < 100
    · rw [if_pos h100] at hws
      obtain rfl : int_0_99_to_words m = ws := by injection hws
      have h99 : int_0_999_to_words m = int_0_99_to_words m := by
        unfold int_0_999_to_words
        rw [if_pos h100]
      rw [← h99]
      exact roundtrip_small m (by omega)
    · rw [if_neg h100] at hws
      by_cases h1000 : m < 1000
      · rw [if_pos h1000] at hws
        obtain rfl : int_0_999_to_words m = ws := by injection hws
        exact roundtrip_small m h1000
      · rw [if_neg h1000, if_pos (by omega : m < 1000000)] at hws
        obtain rfl :
            (if m % 1000 ≠ 0 then
              (feminize_last_word (int_0_999_to_words (m / 1000)) ++
                [thousands_form (m / 1000)]) ++ int_0_999_to_words (m % 1000)
            else
              feminize_last_word (int_0_999_to_words (m / 1000)) ++
                [thousands_form (m / 1000)]) = ws := by
          injection hws
        have hthlt : m / 1000 < 1000 := by
          rw [Nat.div_lt_iff_lt_mul (by omega : 0 < 1000)]
          omega
        have hA : ∀ w ∈ feminize_last_word (int_0_999_to_words (m / 1000)),
            isThousandTok w = false :=
          feminize_no_thousand (render999_no_thousand_mem hthlt)
        have hAne : ¬ ((feminize_last_word (int_0_999_to_words (m / 1000))).isEmpty = true) := by
          simpa [List.isEmpty_iff] using
            feminize_ne_nil (int_0_999_to_words_ne_nil (m / 1000))
        have hform := thousands_form_isThousand (m / 1000)
        have hAparse :
            words_to_int_0_999 (feminize_last_word (int_0_999_to_words (m / 1000))) =
              .ok (m / 1000) := parse999_render999_fem _ hthlt
        by_cases hr : m % 1000 ≠ 0
        · rw [if_pos hr,
            feminize_append (int_0_999_to_words_ne_nil (m % 1000)) _,
            List.append_assoc, List.singleton_append]
          unfold words_to_int_0_999999
          rw [if_neg (by simp), find_first_idx_append hA hform]
          dsimp only
          rw [List.take_left]
          have hdrop :
              ((feminize_last_word (int_0_999_to_words (m / 1000)) ++
                thousands_form (m / 1000) ::
                  feminize_last_word (int_0_999_to_words (m % 1000))).drop
                ((feminize_last_word (int_0_999_to_words (m / 1000))).length + 1)) =
              feminize_last_word (int_0_999_to_words (m % 1000)) := by
            rw [← List.singleton_append, ← List.append_assoc]
            exact List.drop_left' (by simp)
          rw [hdrop, if_neg hAne, hAparse,
            if_neg (by simpa [List.isEmpty_iff] using
              feminize_ne_nil (int_0_999_to_words_ne_nil (m % 1000))),
            parse999_render999_fem _ (by omega : m % 1000 < 1000)]
          show (if m / 1000 * 1000 + m % 1000 ≤ 999999 then
              (Except.ok (m / 1000 * 1000 + m % 1000) : Except Err Nat)
            else Except.error Err.outOfRange999999) = Except.ok m
          rw [if_pos (by omega : m / 1000 * 1000 + m % 1000 ≤ 999999)]
          congr 1
          omega
        · rw [if_neg hr, feminize_append (by simp) _]
          have hfemform :
              feminize_last_word [thousands_form (m / 1000)] =
                [thousands_form (m / 1000)] := by
            show [femWord (thousands_form (m / 1000))] = [thousands_form (m / 1000)]
            rw [femWord_thousands_form]
          rw [hfemform, show
            feminize_last_word (int_0_999_to_words (m / 1000)) ++
              [thousands_form (m / 1000)] =
            feminize_last_word (int_0_999_to_words (m / 1000)) ++
              thousands_form (m / 1000) :: [] from rfl]
          unfold words_to_int_0_999999
          rw [if_neg (by simp), find_first_idx_append hA hform]
          dsimp only
          rw [List.take_left]
          have hdrop :
              ((feminize_last_word (int_0_999_to_words (m / 1000)) ++
                thousands_form (m / 1000) :: []).drop
                ((feminize_last_word (int_0_999_to_words (m / 1000))).length + 1)) =
              ([] : List String) := by
            rw [← List.singleton_append, ← List.append_assoc]
            exact List.drop_left' (by simp)
          rw [hdrop, if_neg hAne, hAparse]
          dsimp only [List.isEmpty_nil]
          rw [if_pos rfl]
          show (if m / 1000 * 1000 + 0 ≤ 999999 then
              (Except.ok (m / 1000 * 1000 + 0) : Except Err Nat)
            else Except.error Err.outOfRange999999) = Except.ok m
          rw [if_pos (by omega : m / 1000 * 1000 + 0 ≤ 999999)]
          congr 1
          omega

/-! ### Fraction round-trip support (C3) -/

theorem feminize_length (l : List String) :
    (feminize_last_word l).length = l.length := by
  induction l with
  | nil => rfl
  | cons a rest ih =>
    cases rest with
    | nil => rfl
    | cons b r2 =>
      show (a :: feminize_last_word (b :: r2)).length = (a :: b :: r2).length
      simp only [List.length_cons, ih]

theorem int_to_words_ru_total {n : Nat} (h : n ≤ 999999) :
    ∃ ws, int_to_words_ru n = .ok ws ∧ ws ≠ [] := by
  unfold int_to_words_ru
  by_cases h0 : n = 0
  · rw [if_pos h0]
    exact ⟨_, rfl, by simp⟩
  · rw [if_neg h0]
    by_cases h1 : n < 100
    · rw [if_pos h1]
      exact ⟨_, rfl, int_0_99_to_words_ne_nil n⟩
    · rw [if_neg h1]
      by_cases h2 : n < 1000
      · rw [if_pos h2]
        exact ⟨_, rfl, int_0_999_to_words_ne_nil n⟩
      · rw [if_neg h2, if_pos (by omega : n < 1000000)]
        refine ⟨_, rfl, ?_⟩
        by_cases hr : n % 1000 ≠ 0
        · rw [if_pos hr]
          intro hc
          rw [List.append_eq_nil, List.append_eq_nil] at hc
          exact absurd hc.1.2 (by simp)
        · rw [if_neg hr]
          intro hc
          rw [List.append_eq_nil] at hc
          exact absurd hc.2 (by simp)

theorem rational_to_words_shape (x : ℚ) (nn q K dd : Nat)
    (hx : 0 ≤ x) (hnn : x.num.toNat = nn) (hq : x.den = q)
    (hlt : nn < q) (hne : nn ≠ 0)
    (hK : K = max (count_factor q 2) (count_factor q 5)) (hKpos : 0 < K)
    (hdd : dd = nn * 10 ^ K / q) (hr0 : nn * 10 ^ K % q = 0) (hdpos : 0 < dd)
    (w : String) (hw : denom_word (10 ^ K) dd = .ok w)
    (Wd : List String) (hWd : int_to_words_ru dd = .ok Wd) :
    rational_to_words x = .ok ("ноль" :: "и" :: (feminize_last_word Wd ++ [w])) := by
  unfold rational_to_words
  rw [if_neg (not_lt.mpr hx), hnn, hq]
  dsimp only
  rw [Nat.mod_eq_of_lt hlt, if_neg hne, Nat.div_eq_of_lt hlt, ← hK,
    if_pos hKpos, ← hdd, hr0,
    show int_to_words_ru 0 = .ok ["ноль"] from rfl]
  dsimp only
  rw [if_pos ⟨hKpos, hdpos⟩, hw, hWd]
  dsimp only
  rw [if_neg (by omega : ¬ (0 : Nat) ≠ 0), List.append_nil]
  rfl

theorem parse_number_mixed_shape (Wn : List String) (w : String) (denom v : Nat)
    (hwne : Wn ≠ [])
    (hden : denominator_from_word w = some denom)
    (hv : (if 1000 ≤ denom then words_to_int_0_999999 Wn
           else words_to_int_0_99 Wn : Except Err Nat) = .ok v)
    (hlt : v < denom) :
    parse_number ("ноль" :: "и" :: (Wn ++ [w])) =
      .ok (((0 : Nat) : ℚ) + (v : ℚ) / (denom : ℚ)) := by
  unfold parse_number
  rw [if_neg (by simp)]
  have hfind : find_first_idx (fun t => t = "и") ("ноль" :: "и" :: (Wn ++ [w])) =
      some 1 := by
    unfold find_first_idx
    rw [if_neg (by decide)]
    unfold find_first_idx
    rw [if_pos (by decide)]
    rfl
  rw [hfind]
  dsimp only
  have htake : List.take 1 ("ноль" :: "и" :: (Wn ++ [w])) = ["ноль"] := rfl
  have hdrop2 : List.drop (1 + 1) ("ноль" :: "и" :: (Wn ++ [w])) = Wn ++ [w] := rfl
  rw [htake, hdrop2]
  have hlen : 1 ≤ Wn.length := List.length_pos.mpr hwne
  rw [if_neg (by
    simp only [List.isEmpty_cons, Bool.false_eq_true, false_or, List.length_append,
      List.length_singleton, not_lt]
    omega)]
  rw [show words_to_int_0_99 ["ноль"] = .ok 0 from by decide]
  dsimp only
  rw [List.dropLast_concat, List.getLastD_concat, hden]
  dsimp only
  rw [hv]
  dsimp only
  rw [if_pos hlt]

theorem denom_word_parse_back {K : Nat} (h1 : 1 ≤ K) (h6 : K ≤ 6) (m : Nat) :
    ∃ w, denom_word (10 ^ K) m = .ok w ∧ denominator_from_word w = some (10 ^ K) := by
  interval_cases K
  · show ∃ w, denom_word 10 m = .ok w ∧ denominator_from_word w = some 10
    unfold denom_word
    rw [show DENOM_FORMS.lookup 10 = some ("десятая", "десятых") from by decide]
    dsimp only
    split
    · exact ⟨_, rfl, by decide⟩
    · exact ⟨_, rfl, by decide⟩
  · show ∃ w, denom_word 100 m = .ok w ∧ denominator_from_word w = some 100
    unfold denom_word
    rw [show DENOM_FORMS.lookup 100 = some ("сотая", "сотых") from by decide]
    dsimp only
    split
    · exact ⟨_, rfl, by decide⟩
    · exact ⟨_, rfl, by decide⟩
  · show ∃ w, denom_word 1000 m = .ok w ∧ denominator_from_word w = some 1000
    unfold denom_word
    rw [show DENOM_FORMS.lookup 1000 = some ("тысячная", "тысячных") from by decide]
    dsimp only
    split
    · exact ⟨_, rfl, by decide⟩
    · exact ⟨_, rfl, by decide⟩
  · show ∃ w, denom_word 10000 m = .ok w ∧ denominator_from_word w = some 10000
    unfold denom_word
    rw [show DENOM_FORMS.lookup 10000 = some ("десятитысячная", "десятитысячных")
      from by decide]
    dsimp only
    split
    · exact ⟨_, rfl, by decide⟩
    · exact ⟨_, rfl, by decide⟩
  · show ∃ w, denom_word 100000 m = .ok w ∧ denominator_from_word w = some 100000
    unfold denom_word
    rw [show DENOM_FORMS.lookup 100000 = some ("стотысячная", "стотысячных")
      from by decide]
    dsimp only
    split
    · exact ⟨_, rfl, by decide⟩
    · exact ⟨_, rfl, by decide⟩
  · show ∃ w, denom_word 1000000 m = .ok w ∧ denominator_from_word w = some 1000000
    unfold denom_word
    rw [show DENOM_FORMS.lookup 1000000 = some ("миллионная", "миллионных")
      from by decide]
    dsimp only
    split
    · exact ⟨_, rfl, by decide⟩
    · exact ⟨_, rfl, by decide⟩

/-- C3: for every supported denominator d ∈ {10, 100, 1000, 10000, 100000,
1000000} and every numerator 0 ≤ k < d, rendering the rational k/d with
`rational_to_words` and parsing the rendered words back with `parse_number`
yields a value exactly equal to k/d. -/
theorem c3_fraction_roundtrip (d k : Nat)
    (hd : d = 10 ∨ d = 100 ∨ d = 1000 ∨ d = 10000 ∨ d = 100000 ∨ d = 1000000)
    (hk : k < d) :
    (rational_to_words ((k : ℚ) / (d : ℚ))).bind parse_number =
      .ok ((k : ℚ) / (d : ℚ)) := by
  have hd0 : 0 < d := by rcases hd with rfl | rfl | rfl | rfl | rfl | rfl <;> norm_num
  have hd10 : d ∣ 10 ^ 6 := by
    rcases hd with rfl | rfl | rfl | rfl | rfl | rfl <;> norm_num
  by_cases hk0 : k = 0
  · subst hk0
    have hzero : ((0 : Nat) : ℚ) / (d : ℚ) = 0 := by simp
    rw [hzero]
    with_unfolding_all decide
  · set x := (k : ℚ) / (d : ℚ) with hxdef
    have hxpos : 0 < x := by
      rw [hxdef]
      apply div_pos
      · exact_mod_cast Nat.pos_of_ne_zero hk0
      · exact_mod_cast hd0
    have hxnn : 0 ≤ x := hxpos.le
    have hxlt1 : x < 1 := by
      rw [hxdef, div_lt_one (by exact_mod_cast hd0)]
      exact_mod_cast hk
    have hqdvd : x.den ∣ d := by
      have h := Rat.den_dvd (k : ℤ) (d : ℤ)
      rw [Rat.divInt_eq_div, Int.cast_natCast, Int.cast_natCast] at h
      exact_mod_cast h
    have hnum_pos : 0 < x.num := Rat.num_pos.mpr hxpos
    have hnlt : x.num < (x.den : ℤ) := by
      have hden : (0 : ℚ) < (x.den : ℚ) := by exact_mod_cast x.pos
      have h1 := hxlt1
      rw [← Rat.num_div_den x, div_lt_one hden] at h1
      exact_mod_cast h1
    have hnnlt : x.num.toNat < x.den := by omega
    have hnnpos : 0 < x.num.toNat := by omega
    obtain ⟨a, b, ha6, hb6, hqab⟩ := dvd_ten_pow_structure (dvd_trans hqdvd hd10)
    have hc2 : count_factor x.den 2 = a := by
      rw [hqab]
      exact count_factor_two_pow a b
    have hc5 : count_factor x.den 5 = b := by
      rw [hqab]
      exact count_factor_five_pow a b
    have hq2 : 2 ≤ x.den := by
      rcases Nat.lt_or_ge x.den 2 with h | h
      · have h1 : x.den = 1 := by
          have := x.pos
          omega
        rw [h1] at hnnlt
        omega
      · exact h
    have hKpos : 0 < max a b := by
      by_contra hc
      have ha0 : a = 0 := by omega
      have hb0 : b = 0 := by omega
      rw [ha0, hb0] at hqab
      norm_num at hqab
      omega
    have hK6 : max a b ≤ 6 := by omega
    have hqpow : x.den ∣ 10 ^ max a b := by
      rw [hqab, show (10 : Nat) ^ max a b = 2 ^ max a b * 5 ^ max a b by
        rw [← mul_pow]
        norm_num]
      exact mul_dvd_mul (pow_dvd_pow 2 (le_max_left a b))
        (pow_dvd_pow 5 (le_max_right a b))
    have hqdvd_mul : x.den ∣ x.num.toNat * 10 ^ max a b := hqpow.mul_left _
    have hr0 : x.num.toNat * 10 ^ max a b % x.den = 0 :=
      Nat.mod_eq_zero_of_dvd hqdvd_mul
    set dd := x.num.toNat * 10 ^ max a b / x.den with hdddef
    have hpow_pos : 0 < (10 : Nat) ^ max a b := Nat.pos_pow_of_pos _ (by omega)
    have hddpos : 0 < dd := by
      rw [hdddef]
      apply Nat.div_pos ?_ x.pos
      calc x.den ≤ 10 ^ max a b := Nat.le_of_dvd hpow_pos hqpow
        _ ≤ x.num.toNat * 10 ^ max a b := Nat.le_mul_of_pos_left _ hnnpos
    have hddlt : dd < 10 ^ max a b := by
      rw [hdddef, Nat.div_lt_iff_lt_mul x.pos]
      calc x.num.toNat * 10 ^ max a b < x.den * 10 ^ max a b :=
            (Nat.mul_lt_mul_right hpow_pos).mpr hnnlt
        _ = 10 ^ max a b * x.den := Nat.mul_comm _ _
    have hddle : dd ≤ 999999 := by
      have hple : (10 : Nat) ^ max a b ≤ 10 ^ 6 := Nat.pow_le_pow_right (by omega) hK6
      have : (10 : Nat) ^ 6 = 1000000 := by norm_num
      omega
    obtain ⟨w, hw, hwback⟩ := denom_word_parse_back hKpos hK6 dd
    obtain ⟨Wd, hWd, hWdne⟩ := int_to_words_ru_total hddle
    have hrend := rational_to_words_shape x x.num.toNat x.den (max a b) dd
      hxnn rfl rfl hnnlt (by omega) (by rw [hc2, hc5]) hKpos hdddef hr0 hddpos
      w hw Wd hWd
    have hv : (if 1000 ≤ 10 ^ max a b then
          words_to_int_0_999999 (feminize_last_word Wd)
        else words_to_int_0_99 (feminize_last_word Wd) : Except Err Nat) = .ok dd := by
      by_cases h3 : 3 ≤ max a b
      · rw [if_pos (by
          calc (1000 : Nat) = 10 ^ 3 := by norm_num
            _ ≤ 10 ^ max a b := Nat.pow_le_pow_right (by omega) h3)]
        exact render_roundtrip dd hddle Wd hWd
      · have h100 : (10 : Nat) ^ max a b ≤ 100 := by
          calc (10 : Nat) ^ max a b ≤ 10 ^ 2 := Nat.pow_le_pow_right (by omega) (by omega)
            _ = 100 := by norm_num
        rw [if_neg (by omega)]
        have hdd100 : dd < 100 := by omega
        have hWd99 : Wd = int_0_99_to_words dd := by
          have heq : int_to_words_ru dd = .ok (int_0_99_to_words dd) := by
            unfold int_to_words_ru
            rw [if_neg (by omega), if_pos hdd100]
          rw [heq] at hWd
          injection hWd with h
          exact h.symm
        rw [hWd99]
        exact parse99_render99_fem dd hdd100
    have hparse := parse_number_mixed_shape (feminize_last_word Wd) w
      (10 ^ max a b) dd (feminize_ne_nil hWdne) hwback hv hddlt
    rw [hrend]
    show parse_number ("ноль" :: "и" :: (feminize_last_word Wd ++ [w])) = .ok x
    rw [hparse]
    congr 1
    have hcross : dd * x.den = x.num.toNat * 10 ^ max a b :=
      Nat.div_mul_cancel hqdvd_mul
    have hden0 : ((x.den : Nat) : ℚ) ≠ 0 := by
      exact_mod_cast x.pos.ne'
    have hpow0 : (((10 : Nat) ^ max a b : Nat) : ℚ) ≠ 0 := by
      exact_mod_cast hpow_pos.ne'
    have hxeq : x = ((x.num.toNat : Nat) : ℚ) / ((x.den : Nat) : ℚ) := by
      have hnum : ((x.num.toNat : Nat) : ℚ) = (x.num : ℚ) := by
        rw [← Int.cast_natCast, Int.toNat_of_nonneg hnum_pos.le]
      rw [hnum, Rat.num_div_den]
    rw [Nat.cast_zero, zero_add, hxeq, div_eq_div_iff hpow0 hden0]
    exact_mod_cast hcross

/-- Witness for `c3_fraction_roundtrip` at d = 10, k = 5 (5/10 = 1/2,
rendered "ноль и пять десятых"). -/
theorem c3_fraction_roundtrip_witness :
    ((10 = 10 ∨ 10 = 100 ∨ 10 = 1000 ∨ 10 = 10000 ∨ 10 = 100000 ∨
      10 = 1000000) ∧ 5 < 10) ∧
    (rational_to_words ((5 : Nat) / ((10 : Nat) : ℚ))).bind parse_number =
      .ok (((5 : Nat) : ℚ) / ((10 : Nat) : ℚ)) :=
  ⟨⟨Or.inl rfl, by decide⟩, c3_fraction_roundtrip 10 5 (Or.inl rfl) (by decide)⟩

/-! ### Repeating-cycle block (C4) -/

theorem lookup_mem {seen : List (Nat × Nat)} {r s : Nat}
    (h : seen.lookup r = some s) : (r, s) ∈ seen := by
  obtain ⟨l1, l2, rfl, -⟩ := List.lookup_eq_some_iff.mp h
  exact List.mem_append.mpr (Or.inr (List.mem_cons_self _ _))

theorem period_loop_spec (q : Nat) (hq : 0 < q) :
    ∀ (fuel r pos : Nat) (seen : List (Nat × Nat)) (digits : List Nat),
      r < q → (∀ dg ∈ digits, dg ≤ 9) →
      (∀ p ∈ seen, p.2 < digits.length) → pos = digits.length →
      (digits = [] → r ≠ 0 ∧ 0 < fuel) →
      period_loop q fuel r pos seen digits ≠ [] ∧
        ∀ dg ∈ period_loop q fuel r pos seen digits, dg ≤ 9 := by
  intro fuel
  induction fuel with
  | zero =>
    intro r pos seen digits _ hd _ _ hst
    have hne : digits ≠ [] := by
      intro hcon
      exact absurd (hst hcon).2 (by omega)
    exact ⟨hne, hd⟩
  | succ fuel ih =>
    intro r pos seen digits hr hd hs hp hst
    unfold period_loop
    by_cases hr0 : r = 0
    · have hne : digits ≠ [] := by
        intro hcon
        exact absurd hr0 (hst hcon).1
      rw [if_pos hr0]
      exact ⟨hne, hd⟩
    · rw [if_neg hr0]
      dsimp only
      cases hlook : seen.lookup r with
      | some start =>
        have hstart : start < digits.length := hs (r, start) (lookup_mem hlook)
        constructor
        · intro hcon
          rw [List.drop_eq_nil_iff] at hcon
          omega
        · intro dg hdg
          exact hd dg (List.mem_of_mem_drop hdg)
      | none =>
        have hdig9 : r * 10 / q ≤ 9 := by
          have h1 : r * 10 < 10 * q := by omega
          have h2 := (Nat.div_lt_iff_lt_mul hq).mpr h1
          omega
        apply ih
        · exact Nat.mod_lt _ hq
        · intro dg hdg
          rcases List.mem_append.mp hdg with h | h
          · exact hd dg h
          · have hdg2 : dg = r * 10 / q := by simpa using h
            omega
        · intro p hp2
          rcases List.mem_cons.mp hp2 with rfl | h
          · simp only [List.length_append, List.length_singleton]
            omega
          · have := hs p h
            simp only [List.length_append, List.length_singleton]
            omega
        · simp only [List.length_append, List.length_singleton]
          omega
        · intro hcon
          exact absurd hcon (by simp)

/-- C4 (counterexample): a reduced denominator with a prime factor other
than 2 or 5 does not guarantee a repeating-cycle block: for 1/384
(384 = 2^7·3) the finite-prefix scale is 10^7, which is not a supported
denominator, so rendering fails with `unsupportedDenominator` before any
cycle is emitted. -/
theorem c4_counterexample :
    rational_to_words ((1 : ℚ) / 384) = .error .unsupportedDenominator := by
  with_unfolding_all decide

/-- C4 (amended): for every non-negative rational whose reduced denominator
has a prime factor other than 2 or 5 (equivalently, does not divide
10^den), whose integer part is below 1 000 000, and whose finite decimal
prefix is either absent, zero, or scaled by a supported power 10^k with
k ≤ 6, `rational_to_words` appends a repeating-cycle block: the cycle found
by the remainder-map long division bounded at 200 digits, truncated to at
most 4 digits, spelled digit by digit and followed by "в периоде"; in
particular "один разделить на три" evaluates to "ноль и три в периоде". -/
theorem c4_repeating_cycle_amended :
    (∀ x : ℚ, 0 ≤ x → ¬ (x.den ∣ 10 ^ x.den) → x.num.toNat / x.den ≤ 999999 →
      (max (count_factor x.den 2) (count_factor x.den 5) ≤ 6 ∨
        x.num.toNat % x.den *
          10 ^ max (count_factor x.den 2) (count_factor x.den 5) / x.den = 0) →
      ∃ pre ds, rational_to_words x =
          .ok (pre ++ "и" :: digits_to_words ds ++ ["в", "периоде"]) ∧
        1 ≤ ds.length ∧ ds.length ≤ 4 ∧ ∀ dg ∈ ds, dg ≤ 9) ∧
    calc_expr "один разделить на три" = .ok "ноль и три в периоде" := by
  constructor
  · intro x hx hnot hint hcase
    have hq : 0 < x.den := x.pos
    have hq1 : x.den ≠ 1 := by
      intro h1
      exact hnot (h1 ▸ one_dvd _)
    have hco : Nat.Coprime x.num.toNat x.den := by
      have hred := x.reduced
      have habs : x.num.natAbs = x.num.toNat := by
        have : 0 ≤ x.num := Rat.num_nonneg.mpr hx
        omega
      rwa [habs] at hred
    have hrem_ne : x.num.toNat % x.den ≠ 0 := by
      intro h0
      exact hq1 (Nat.Coprime.eq_one_of_dvd hco.symm (Nat.dvd_of_mod_eq_zero h0))
    have hrem_lt : x.num.toNat % x.den < x.den := Nat.mod_lt _ hq
    have hco2 : Nat.Coprime x.den (x.num.toNat % x.den) := by
      have h2 : Nat.gcd (x.num.toNat % x.den) x.den = 1 := by
        rw [← Nat.gcd_rec]
        exact hco.symm
      exact (Nat.coprime_comm.mp h2)
    have hKq : max (count_factor x.den 2) (count_factor x.den 5) ≤ x.den := by
      have h2 := count_factor_le x.den 2
      have h5 := count_factor_le x.den 5
      omega
    obtain ⟨K, hKdef⟩ :
        ∃ K, K = max (count_factor x.den 2) (count_factor x.den 5) := ⟨_, rfl⟩
    obtain ⟨pw, hpwdef⟩ : ∃ pw, pw = (if 0 < K then 10 ^ K else 1) := ⟨_, rfl⟩
    have hr_ne : x.num.toNat % x.den * pw % x.den ≠ 0 := by
      intro h0
      have hqpw : x.den ∣ pw := by
        refine Nat.Coprime.dvd_of_dvd_mul_right hco2 ?_
        rw [Nat.mul_comm]
        exact Nat.dvd_of_mod_eq_zero h0
      by_cases hK0 : 0 < K
      · rw [hpwdef, if_pos hK0] at hqpw
        exact hnot (dvd_trans hqpw (pow_dvd_pow 10 (by omega)))
      · rw [hpwdef, if_neg hK0] at hqpw
        exact hq1 (Nat.dvd_one.mp hqpw)
    have hr_lt : x.num.toNat % x.den * pw % x.den < x.den := Nat.mod_lt _ hq
    have hloop := period_loop_spec x.den hq 200
      (x.num.toNat % x.den * pw % x.den) 0 [] [] hr_lt (by simp) (by simp) rfl
      (fun _ => ⟨hr_ne, by omega⟩)
    obtain ⟨intW, hintW, -⟩ := int_to_words_ru_total hint
    unfold rational_to_words
    rw [if_neg (not_lt.mpr hx)]
    dsimp only
    rw [if_neg hrem_ne, ← hKdef, ← hpwdef, hintW]
    dsimp only
    by_cases hguard : 0 < K ∧ 0 < x.num.toNat % x.den * pw / x.den
    · rw [if_pos hguard]
      have hK6 : K ≤ 6 := by
        rcases hcase with h | h
        · omega
        · exfalso
          rw [hpwdef, if_pos hguard.1] at hguard
          rw [← hKdef] at h
          omega
      obtain ⟨w, hw, -⟩ := denom_word_parse_back
        (by omega : 1 ≤ K) hK6 (x.num.toNat % x.den * pw / x.den)
      have hpw10 : pw = 10 ^ K := by
        rw [hpwdef, if_pos hguard.1]
      have hdle : x.num.toNat % x.den * pw / x.den ≤ 999999 := by
        have hlt : x.num.toNat % x.den * pw / x.den < 10 ^ K := by
          rw [Nat.div_lt_iff_lt_mul hq, hpw10]
          calc x.num.toNat % x.den * 10 ^ K < x.den * 10 ^ K :=
              (Nat.mul_lt_mul_right (Nat.pos_pow_of_pos _ (by omega))).mpr hrem_lt
            _ = 10 ^ K * x.den := Nat.mul_comm _ _
        have hple : (10 : Nat) ^ K ≤ 10 ^ 6 := Nat.pow_le_pow_right (by omega) hK6
        have h6 : (10 : Nat) ^ 6 = 1000000 := by norm_num
        omega
      obtain ⟨Wd, hWd, -⟩ := int_to_words_ru_total hdle
      rw [← hpw10] at hw
      rw [hw, hWd]
      dsimp only
      rw [if_pos hr_ne]
      refine ⟨intW ++ ("и" :: feminize_last_word Wd ++ [w]),
        (period_loop x.den 200 (x.num.toNat % x.den * pw % x.den) 0 [] []).take 4,
        by simp only [period_block, List.append_assoc, List.nil_append], ?_, ?_, ?_⟩
      · have := List.length_pos.mpr hloop.1
        rw [List.length_take]
        omega
      · rw [List.length_take]
        omega
      · intro dg hdg
        exact hloop.2 dg (List.mem_of_mem_take hdg)
    · rw [if_neg hguard]
      dsimp only
      rw [if_pos hr_ne]
      refine ⟨intW ++ [],
        (period_loop x.den 200 (x.num.toNat % x.den * pw % x.den) 0 [] []).take 4,
        by simp only [period_block, List.append_assoc, List.nil_append], ?_, ?_, ?_⟩
      · have := List.length_pos.mpr hloop.1
        rw [List.length_take]
        omega
      · rw [List.length_take]
        omega
      · intro dg hdg
        exact hloop.2 dg (List.mem_of_mem_take hdg)
  · with_unfolding_all decide

/-- Witness for `c4_repeating_cycle_amended`: its universally quantified
part applied at x = 1/3 (denominator 3, no finite prefix, cycle "3"). -/
theorem c4_repeating_cycle_witness :
    ((0 : ℚ) ≤ (1 : ℚ) / 3 ∧ ¬ (((1 : ℚ) / 3).den ∣ 10 ^ ((1 : ℚ) / 3).den) ∧
      ((1 : ℚ) / 3).num.toNat / ((1 : ℚ) / 3).den ≤ 999999 ∧
      (max (count_factor ((1 : ℚ) / 3).den 2) (count_factor ((1 : ℚ) / 3).den 5) ≤ 6 ∨
        ((1 : ℚ) / 3).num.toNat % ((1 : ℚ) / 3).den *
          10 ^ max (count_factor ((1 : ℚ) / 3).den 2)
            (count_factor ((1 : ℚ) / 3).den 5) / ((1 : ℚ) / 3).den = 0)) ∧
    (∃ pre ds, rational_to_words ((1 : ℚ) / 3) =
        .ok (pre ++ "и" :: digits_to_words ds ++ ["в", "периоде"]) ∧
      1 ≤ ds.length ∧ ds.length ≤ 4 ∧ ∀ dg ∈ ds, dg ≤ 9) :=
  ⟨⟨by with_unfolding_all decide, by with_unfolding_all decide,
    by with_unfolding_all decide, by with_unfolding_all decide⟩,
   c4_repeating_cycle_amended.1 ((1 : ℚ) / 3) (by with_unfolding_all decide)
     (by with_unfolding_all decide) (by with_unfolding_all decide)
     (by with_unfolding_all decide)⟩
